import Mathlib

/-!
Verification of the coachgpt synchronization and caching engine.

This file gives a shallow embedding, in Lean 4, of the core of the
repository: the file-based HTTP response cache (`cache` package:
`FileCache.Read`, `FileCache.Write`, `FileCache.GetETag`,
`FileCache.KeyFor`, `FileCache.sanitizeKey`), the conditional fetcher
(`strava/api.go`: `apiGETCached`), the token lifecycle manager
(`strava/client.go`: `EnsureTokens`), the idempotent workout upsert
(`internal/db/queries.sql`: `UpsertWorkout`), the sync worker
(`hevy/client.go` worker file: `syncStravaForAthlete`) and the retry
classifier (`isRetryableError`).

Modelling conventions:
* Go strings are Lean `String`s; byte-level operations work on `.data`
  (the claims only involve ASCII, where characters and bytes coincide).
* `time.Time` values are `Int` Unix seconds; `time.Duration` margins are
  in seconds (2 minutes = 120, 12 hours = 43200, 14 days = 1209600).
* Network and database effects are scripted by explicit oracles carried
  in an environment record; every network round trip advances a logical
  clock by one, so "the current time" at any point of a run is visible.
* Go `float64` metric fields (distance, elevation, heart rate) are
  modelled as `Int`; the claims do not depend on float semantics.
* `crypto/md5` is an external primitive and appears as an explicit
  function parameter `md5 : String → String` (its hex digest).
-/

/-! ## String and character utilities

Go's `sort.Strings` sorts byte-lexicographically; `charListLe` is that
order on the character lists of ASCII strings. -/

def charListLe : List Char → List Char → Bool
  | [], _ => true
  | _ :: _, [] => false
  | a :: as, b :: bs =>
    if a.toNat < b.toNat then true
    else if b.toNat < a.toNat then false
    else charListLe as bs

def strLe (a b : String) : Bool := charListLe a.data b.data

def strRel : String → String → Prop := fun a b => strLe a b = true

instance : DecidableRel strRel :=
  fun a b => inferInstanceAs (Decidable (strLe a b = true))

instance : IsTotal String strRel := ⟨by
  have aux : ∀ as bs : List Char, charListLe as bs = true ∨ charListLe bs as = true := by
    intro as
    induction as with
    | nil => intro bs; left; simp [charListLe]
    | cons a as ih =>
      intro bs
      cases bs with
      | nil => right; simp [charListLe]
      | cons b bs =>
        rcases Nat.lt_trichotomy a.toNat b.toNat with h | h | h
        · left; simp [charListLe, h]
        · have h1 : ¬ a.toNat < b.toNat := by omega
          have h2 : ¬ b.toNat < a.toNat := by omega
          simpa [charListLe, h1, h2] using ih bs
        · right; simp [charListLe, h]
  intro a b
  exact aux a.data b.data⟩

instance : IsTrans String strRel := ⟨by
  have aux : ∀ as bs cs : List Char, charListLe as bs = true → charListLe bs cs = true →
      charListLe as cs = true := by
    intro as
    induction as with
    | nil => intro bs cs _ _; simp [charListLe]
    | cons a as ih =>
      intro bs cs h1 h2
      cases bs with
      | nil => simp [charListLe] at h1
      | cons b bs =>
        cases cs with
        | nil => simp [charListLe] at h2
        | cons c cs =>
          by_cases hab : a.toNat < b.toNat <;> by_cases hbc : b.toNat < c.toNat
          · simp [charListLe]; omega
          · have hcb : ¬ c.toNat < b.toNat := by
              intro hlt
              simp [charListLe, hbc, hlt] at h2
            have : a.toNat < c.toNat := by omega
            simp [charListLe, this]
          · have hba : ¬ b.toNat < a.toNat := by
              intro hlt
              simp [charListLe, hab, hlt] at h1
            have : a.toNat < c.toNat := by omega
            simp [charListLe, this]
          · have hba : ¬ b.toNat < a.toNat := by
              intro hlt
              simp [charListLe, hab, hlt] at h1
            have hcb : ¬ c.toNat < b.toNat := by
              intro hlt
              simp [charListLe, hbc, hlt] at h2
            have hac : ¬ a.toNat < c.toNat := by omega
            have hca : ¬ c.toNat < a.toNat := by omega
            simp [charListLe, hab, hba] at h1
            simp [charListLe, hbc, hcb] at h2
            simpa [charListLe, hac, hca] using ih bs cs h1 h2
  intro a b c h1 h2
  exact aux a.data b.data c.data h1 h2⟩

instance : IsAntisymm String strRel := ⟨by
  have aux : ∀ as bs : List Char, charListLe as bs = true → charListLe bs as = true →
      as = bs := by
    intro as
    induction as with
    | nil => intro bs _ h2; cases bs with
      | nil => rfl
      | cons b bs => simp [charListLe] at h2
    | cons a as ih =>
      intro bs h1 h2
      cases bs with
      | nil => simp [charListLe] at h1
      | cons b bs =>
        by_cases hab : a.toNat < b.toNat
        · have hba : ¬ b.toNat < a.toNat := by omega
          simp [charListLe, hba, hab] at h2
        · by_cases hba : b.toNat < a.toNat
          · simp [charListLe, hab, hba] at h1
          · have hEq : a.toNat = b.toNat := by omega
            have hchar : a = b := by
              rw [← Char.ofNat_toNat a, ← Char.ofNat_toNat b, hEq]
            simp [charListLe, hab, hba] at h1 h2
            rw [hchar, ih bs h1 h2]
  intro a b h1 h2
  have hdata : a.data = b.data := aux a.data b.data h1 h2
  cases a
  cases b
  exact congrArg String.mk hdata⟩

/-- Model of Go `sort.Strings` (byte-lexicographic sort). -/
def sortStrings (l : List String) : List String := List.insertionSort strRel l

/-- Model of Go `strings.ReplaceAll s old new` for a single-character
pattern, which is how every replacement in the repository uses it. -/
def replaceChar (s : String) (old new : Char) : String :=
  ⟨s.data.map (fun c => if c = old then new else c)⟩

/-- ASCII lower-casing of one character (model of `strings.ToLower`
restricted to ASCII, which covers every string the code compares). -/
def lowerChar (c : Char) : Char :=
  if 65 ≤ c.toNat ∧ c.toNat ≤ 90 then Char.ofNat (c.toNat + 32) else c

def strToLower (s : String) : String := ⟨s.data.map lowerChar⟩

/-- Does the character list start with the given pattern? -/
def startsW : List Char → List Char → Bool
  | _, [] => true
  | [], _ :: _ => false
  | c :: cs, p :: ps => (c = p) && startsW cs ps

/-- Model of Go `strings.Contains` on character lists. -/
def containsSub : List Char → List Char → Bool
  | [], pat => pat.isEmpty
  | s@(_ :: rest), pat => startsW s pat || containsSub rest pat

def strContains (s sub : String) : Bool := containsSub s.data sub.data

/-! ## Cache data model (`cache` package)

A cache entry as persisted by `FileCache` (`cache/interfaces.go`):
ETag, fetch timestamp and the raw response body.  A cache file on disk
either holds a JSON-decodable entry or undecodable bytes; a missing or
unreadable file is `none` in the store. -/

structure Entry where
  etag : String
  fetchedAt : Int
  body : List Nat
deriving DecidableEq

inductive RawFile
  | undecodable
  | entry (e : Entry)
deriving DecidableEq

def CacheStore := String → Option RawFile

/-- Model of `FileCache.Read` (unnamed cache file, `Read` method):
a missing or undecodable file yields `(none, false)`; an entry older
than a positive `maxAge` is returned but marked not found; otherwise
the entry is returned as found. -/
def FileCache.Read (store : CacheStore) (now : Int) (key : String) (maxAge : Int) :
    Option Entry × Bool :=
  match store key with
  | none => (none, false)
  | some .undecodable => (none, false)
  | some (.entry e) =>
    if maxAge > 0 ∧ now - e.fetchedAt > maxAge then (some e, false)
    else (some e, true)

/-- Model of `FileCache.Write`: sets `fetchedAt` to the current time and
atomically replaces the stored file for the key. -/
def FileCache.Write (store : CacheStore) (now : Int) (key : String) (e : Entry) :
    CacheStore :=
  fun k => if k = key then some (.entry { e with fetchedAt := now }) else store k

/-- Model of `FileCache.GetETag`: a zero-`maxAge` read, returning the
entry's ETag when a readable entry exists and the empty string otherwise. -/
def FileCache.GetETag (store : CacheStore) (now : Int) (key : String) : String :=
  match FileCache.Read store now key 0 with
  | (some e, true) => e.etag
  | (some _, false) => ""
  | (none, _) => ""

/-- The characters `FileCache.sanitizeKey` replaces with an underscore. -/
def filenameBadChars : List Char := [':', '?', '&', '=', '#', '<', '>', '|', '*', '"']

/-- Model of `FileCache.sanitizeKey`: keys longer than 200 bytes are
replaced by an md5 digest; otherwise each filename-hostile character is
replaced with an underscore.  `md5` is the external hash primitive. -/
def FileCache.sanitizeKey (md5 : String → String) (key : String) : String :=
  if key.utf8ByteSize > 200 then "hash_" ++ md5 key
  else filenameBadChars.foldl (fun r c => replaceChar r c '_') key

/-- Model of `FileCache.KeyFor`: builds `k=v` parts from the parameter
pairs, sorts them, joins them onto the slash-cleaned path and sanitizes
the result.  Go iterates a `map[string]string`, so the parameter pairs
arrive in arbitrary order; the model takes them as a list. -/
def FileCache.KeyFor (md5 : String → String) (path : String)
    (params : List (String × String)) : String :=
  let parts := sortStrings (params.map (fun kv => kv.1 ++ "=" ++ kv.2))
  let cleanPath := replaceChar path '/' '_'
  if parts.length > 0 then
    FileCache.sanitizeKey md5 (cleanPath ++ "__" ++ String.intercalate "__" parts) ++ ".json"
  else
    FileCache.sanitizeKey md5 cleanPath ++ ".json"

/-! ## Retry classifier (worker file, `isRetryableError`)

The Go classifier lower-cases the error text and scans it for fixed
substrings; the model reproduces exactly those checks. -/

def isRetryableError (msg : String) : Bool :=
  let errStr := strToLower msg
  if strContains errStr "timeout" || strContains errStr "connection" ||
     strContains errStr "network" || strContains errStr "dns" then true
  else if strContains errStr "429" || strContains errStr "rate limit" then true
  else if strContains errStr "500" || strContains errStr "502" ||
          strContains errStr "503" || strContains errStr "504" then true
  else if strContains errStr "refresh strava token" then true
  else false

/-- The error text `syncStravaForAthlete` produces for a non-2xx
activity-feed response: `fmt.Errorf("strava activities status %d: %s", ...)`. -/
def stravaStatusMsg (status : Nat) (body : String) : String :=
  "strava activities status " ++ toString status ++ ": " ++ body

/-! ## Token lifecycle manager (`strava/client.go`, `EnsureTokens`)

Tokens as stored in `strava_token.json`; the refresh network exchange
and the interactive OAuth flow are scripted by the environment. -/

structure Tokens where
  tokenType : String
  accessToken : String
  expiresAt : Int
  expiresIn : Int
  refreshToken : String
deriving DecidableEq

inductive RefreshResult
  | netErr
  | badStatus (code : Nat)
  | decodeErr
  | ok (t : Tokens)
deriving DecidableEq

structure EnsureEnv where
  stored : Option Tokens
  now : Int
  refresh : RefreshResult
  saveOk : Bool
  oauthOutcome : Except String String

structure EnsureOut where
  result : Except String String
  saved : Option Tokens
  refreshCalls : Nat

/-- Model of `EnsureTokens`: load the stored tokens; when a refresh
token is present and the token expires within 120 seconds, run one
refresh exchange and persist the full new token set before returning
the new access token; when not expiring soon, return the stored access
token with no network call; without usable tokens, fall back to the
interactive OAuth flow, whose outcome the environment scripts. -/
def EnsureTokens (env : EnsureEnv) : EnsureOut :=
  match env.stored with
  | some tok =>
    if tok.refreshToken ≠ "" then
      if tok.expiresAt - env.now < 120 then
        match env.refresh with
        | .netErr =>
          { result := .error "refresh token failed", saved := none, refreshCalls := 1 }
        | .badStatus _ =>
          { result := .error "refresh token failed: status", saved := none, refreshCalls := 1 }
        | .decodeErr =>
          { result := .error "decode refresh token failed", saved := none, refreshCalls := 1 }
        | .ok nt =>
          if env.saveOk then
            { result := .ok nt.accessToken, saved := some nt, refreshCalls := 1 }
          else
            { result := .error "save token failed", saved := none, refreshCalls := 1 }
      else
        { result := .ok tok.accessToken, saved := none, refreshCalls := 0 }
    else
      { result := env.oauthOutcome, saved := none, refreshCalls := 0 }
  | none =>
    { result := env.oauthOutcome, saved := none, refreshCalls := 0 }

/-! ## Conditional fetcher (`strava/api.go`, `apiGETCached`)

The upstream HTTP server is scripted as a list of outcomes consumed one
per round trip; the model additionally records, per round trip, whether
the request carried an `If-None-Match` header, so the claims about
conditional requests are directly observable. -/

inductive HttpOutcome
  | netErr
  | resp (status : Nat) (etag : String) (body : List Nat)
deriving DecidableEq

inductive ReqKind
  | conditional (etag : String)
  | plain
deriving DecidableEq

inductive FetchErr
  | netErr
  | httpStatus (status : Nat)
  | decodeFail
deriving DecidableEq

structure FetchEnv where
  noCache : Bool
  md5 : String → String
  store : CacheStore
  now : Int
  ttl : Int
  upstream : List HttpOutcome

/-- The final, unconditional branch of `apiGETCached`: one more round
trip; non-2xx statuses become errors and are never cached; a success is
written to the cache with the returned ETag and then decoded.  `kind`
records the headers still set on the request object (Go reuses the same
request after a failed conditional attempt, so the `If-None-Match`
header survives into this branch). -/
def apiNormalFetch {α : Type} (decode : List Nat → Option α) (env : FetchEnv)
    (cacheName : String) (reqs : List ReqKind) (kind : ReqKind)
    (upstream : List HttpOutcome) : Except FetchErr α × List ReqKind × CacheStore :=
  match upstream with
  | [] => (.error .netErr, reqs ++ [kind], env.store)
  | .netErr :: _ => (.error .netErr, reqs ++ [kind], env.store)
  | .resp status etag body :: _ =>
    if 300 ≤ status then (.error (.httpStatus status), reqs ++ [kind], env.store)
    else
      let store2 := FileCache.Write env.store env.now cacheName
        { etag := etag, fetchedAt := 0, body := body }
      (match decode body with
       | some v => .ok v
       | none => .error .decodeFail, reqs ++ [kind], store2)

/-- The ETag revalidation step of `apiGETCached`: a zero-`maxAge` read;
when it yields an entry with a non-empty ETag, a conditional request is
issued, a 304 serves the cached body, and anything else falls through
to the unconditional fetch (whose request still carries the header). -/
def apiETagStep {α : Type} (decode : List Nat → Option α) (env : FetchEnv)
    (cacheName : String) : Except FetchErr α × List ReqKind × CacheStore :=
  match FileCache.Read env.store env.now cacheName 0 with
  | (some entry, _) =>
    if entry.etag ≠ "" then
      match env.upstream with
      | [] =>
        apiNormalFetch decode env cacheName [.conditional entry.etag]
          (.conditional entry.etag) []
      | .netErr :: rest =>
        apiNormalFetch decode env cacheName [.conditional entry.etag]
          (.conditional entry.etag) rest
      | .resp status _ _ :: rest =>
        if status = 304 then
          (match decode entry.body with
           | some v => .ok v
           | none => .error .decodeFail, [.conditional entry.etag], env.store)
        else
          apiNormalFetch decode env cacheName [.conditional entry.etag]
            (.conditional entry.etag) rest
    else apiNormalFetch decode env cacheName [] .plain env.upstream
  | (none, _) => apiNormalFetch decode env cacheName [] .plain env.upstream

/-- Model of `apiGETCached`: derive the cache key; unless `NoCache` is
set, a fresh-enough cached body with nonempty payload is decoded and
returned with no network traffic; otherwise the call proceeds to the
ETag revalidation step and then the unconditional fetch. -/
def apiGETCached {α : Type} (decode : List Nat → Option α) (env : FetchEnv)
    (path : String) (params : List (String × String)) :
    Except FetchErr α × List ReqKind × CacheStore :=
  let cacheName := FileCache.KeyFor env.md5 path params
  match (if env.noCache then (none, false)
         else FileCache.Read env.store env.now cacheName env.ttl) with
  | (some entry, true) =>
    if entry.body ≠ [] then
      (match decode entry.body with
       | some v => .ok v
       | none => .error .decodeFail, [], env.store)
    else apiETagStep decode env cacheName
  | _ => apiETagStep decode env cacheName

/-! ## Idempotent workout upsert (`internal/db/queries.sql`, `UpsertWorkout`)

The `workout` table (`internal/migrations/0003_workouts.sql`) carries a
UNIQUE constraint on `(athlete_id, source, source_id)`; `UpsertWorkout`
is an `INSERT ... ON CONFLICT ... DO UPDATE` on that key which rewrites
every non-key column from the new values. -/

structure Activity where
  id : Int
  name : String
  sport : String
  startDate : Option Int
  elapsedSecs : Int
  distanceM : Int
  totalElevM : Int
  avgHR : Option Int
deriving DecidableEq

structure WorkoutRow where
  athleteId : Nat
  source : String
  sourceId : Int
  name : Option String
  sport : String
  startedAt : Int
  durationSec : Int
  distanceM : Option Int
  elevGainM : Option Int
  avgHr : Option Int
  rawJson : Activity
deriving DecidableEq

def rowKey (r : WorkoutRow) : Nat × String × Int := (r.athleteId, r.source, r.sourceId)

/-- Model of `UpsertWorkout`: when a row with the same
`(athlete_id, source, source_id)` exists it is rewritten with the new
values, otherwise a new row is appended. -/
def UpsertWorkout (t : List WorkoutRow) (p : WorkoutRow) : List WorkoutRow :=
  if t.any (fun r => decide (rowKey r = rowKey p)) then
    t.map (fun r => if rowKey r = rowKey p then p else r)
  else t ++ [p]

/-- The UNIQUE constraint of the `workout` table: no two rows share an
`(athlete_id, source, source_id)` key. -/
def keysUnique (t : List WorkoutRow) : Prop := (t.map rowKey).Nodup

/-- The mapping from a decoded Strava activity to an `UpsertWorkout`
row, as built inline in `syncStravaForAthlete` (zero-valued metrics
become SQL NULLs; a failed `time.Parse` leaves the zero time). -/
def activityToRow (aid : Nat) (a : Activity) : WorkoutRow :=
  let startedAt := a.startDate.getD 0
  let avgHR : Int := match a.avgHR with
    | some h => h
    | none => 0
  { athleteId := aid
    source := "strava"
    sourceId := a.id
    name := if a.name ≠ "" then some a.name else none
    sport := a.sport
    startedAt := startedAt
    durationSec := a.elapsedSecs
    distanceM := if a.distanceM > 0 then some a.distanceM else none
    elevGainM := if a.totalElevM > 0 then some a.totalElevM else none
    avgHr := if avgHR > 0 then some avgHR else none
    rawJson := a }

/-! ## Sync engine (worker file, `syncStravaForAthlete`)

The upstream activity feed, the token-refresh endpoint and the database
are scripted by a `SyncWorld`.  Each HTTP round trip (page fetch or
token refresh) advances the logical clock `now` by one; `attempts`
records the page number of every activity-feed request issued. -/

structure TokenResp where
  accessToken : String
  refreshToken : String
  expiresAt : Int
deriving DecidableEq

inductive RefreshOutcome
  | err
  | ok (t : TokenResp)
deriving DecidableEq

inductive FetchOutcome
  | netErr
  | resp (status : Nat) (items : Option (List Activity))
deriving DecidableEq

inductive SyncErr
  | getAthlete
  | refreshToken
  | updateTokens
  | fetchNet
  | refresh401
  | updateTokens401
  | httpStatus (status : Nat)
  | unmarshal
  | upsertFailed
  | updateWatermark
deriving DecidableEq

structure AthleteRow where
  accessToken : String
  refreshToken : String
  tokenExpiry : Int
  lastStravaSync : Option Int
deriving DecidableEq

structure DbState where
  athlete : AthleteRow
  workouts : List WorkoutRow
deriving DecidableEq

structure SyncWorld where
  athleteId : Nat
  getAthleteOk : Bool
  db : DbState
  fetches : List FetchOutcome
  refreshes : List RefreshOutcome
  upsertOk : Nat → Bool
  tokenUpdateOk : Bool
  watermarkOk : Bool
  sinceUnix : Int
  startNow : Int

structure SyncState where
  db : DbState
  access : String
  refreshTok : String
  expiry : Int
  since : Int
  now : Int
  attempts : List Nat
  refreshCalls : Nat
  total : Nat
  wmWrites : Nat

/-- Persist refreshed tokens on the athlete row
(`UpdateAthleteStravaTokens`). -/
def updDbTokens (st : SyncState) (t : TokenResp) : SyncState :=
  { st with db := { st.db with athlete := { st.db.athlete with
      accessToken := t.accessToken
      refreshToken := t.refreshToken
      tokenExpiry := t.expiresAt } } }

/-- The per-page upsert loop: each item is mapped to a row and upserted;
a failing upsert aborts the page, keeping the rows already written. -/
def upsertItems (aid : Nat) (upsertOk : Nat → Bool) :
    List Activity → SyncState → Bool × SyncState
  | [], st => (true, st)
  | a :: rest, st =>
    if upsertOk st.total then
      upsertItems aid upsertOk rest
        { st with
          db := { st.db with workouts := UpsertWorkout st.db.workouts (activityToRow aid a) }
          total := st.total + 1 }
    else (false, st)

/-- The pagination loop of `syncStravaForAthlete`.  One scripted fetch
outcome is consumed per activity-feed request; an exhausted script
behaves like a transport failure.  A 401 consumes a refresh outcome and
retries the same page; any other non-2xx status, an undecodable body or
a failed upsert aborts; a page with zero items ends pagination and
writes the sync watermark with the current time. -/
def syncLoop (aid : Nat) (upsertOk : Nat → Bool) (tokenUpdateOk watermarkOk : Bool) :
    List FetchOutcome → List RefreshOutcome → Nat → SyncState →
    Except SyncErr Unit × SyncState
  | [], _, page, st =>
    (.error .fetchNet, { st with attempts := st.attempts ++ [page], now := st.now + 1 })
  | f :: fs, rs, page, st =>
    let st1 := { st with attempts := st.attempts ++ [page], now := st.now + 1 }
    match f with
    | .netErr => (.error .fetchNet, st1)
    | .resp status items =>
      if status = 401 then
        match rs with
        | [] =>
          (.error .refresh401,
           { st1 with now := st1.now + 1, refreshCalls := st1.refreshCalls + 1 })
        | .err :: _ =>
          (.error .refresh401,
           { st1 with now := st1.now + 1, refreshCalls := st1.refreshCalls + 1 })
        | .ok t :: rs2 =>
          let st2 := { st1 with
            now := st1.now + 1
            refreshCalls := st1.refreshCalls + 1
            access := t.accessToken
            refreshTok := t.refreshToken
            expiry := t.expiresAt }
          if tokenUpdateOk then
            syncLoop aid upsertOk tokenUpdateOk watermarkOk fs rs2 page (updDbTokens st2 t)
          else (.error .updateTokens401, st2)
      else if 300 ≤ status then
        (.error (.httpStatus status), st1)
      else
        match items with
        | none => (.error .unmarshal, st1)
        | some [] =>
          if watermarkOk then
            (.ok (), { st1 with
              db := { st1.db with athlete := { st1.db.athlete with
                lastStravaSync := some st1.now } }
              wmWrites := st1.wmWrites + 1 })
          else (.error .updateWatermark, st1)
        | some (a :: rest) =>
          match upsertItems aid upsertOk (a :: rest) st1 with
          | (true, st2) => syncLoop aid upsertOk tokenUpdateOk watermarkOk fs rs (page + 1) st2
          | (false, st2) => (.error .upsertFailed, st2)

/-- Computes the incremental window and enters the pagination loop:
a nonzero payload `since` wins; otherwise the stored watermark minus a
12-hour overlap; otherwise a 14-day default lookback. -/
def syncStart (w : SyncWorld) (rs : List RefreshOutcome) (st : SyncState) :
    Except SyncErr Unit × SyncState :=
  let fromWm := match w.db.athlete.lastStravaSync with
    | some t => t - 43200
    | none => st.now - 1209600
  let since := if w.sinceUnix ≠ 0 then w.sinceUnix else fromWm
  syncLoop w.athleteId w.upsertOk w.tokenUpdateOk w.watermarkOk w.fetches rs 1
    { st with since := since }

/-- Model of `syncStravaForAthlete`: load the athlete row; refresh and
persist tokens proactively when they expire within two minutes; then
paginate the activity feed from the incremental window and, on reaching
an empty page, write the sync watermark. -/
def syncStravaForAthlete (w : SyncWorld) : Except SyncErr Unit × SyncState :=
  let st0 : SyncState :=
    { db := w.db, access := w.db.athlete.accessToken,
      refreshTok := w.db.athlete.refreshToken, expiry := w.db.athlete.tokenExpiry,
      since := 0, now := w.startNow, attempts := [], refreshCalls := 0,
      total := 0, wmWrites := 0 }
  if w.getAthleteOk = false then (.error .getAthlete, st0)
  else if w.db.athlete.tokenExpiry - w.startNow < 120 then
    match w.refreshes with
    | [] => (.error .refreshToken, { st0 with now := st0.now + 1, refreshCalls := 1 })
    | .err :: _ => (.error .refreshToken, { st0 with now := st0.now + 1, refreshCalls := 1 })
    | .ok t :: rs2 =>
      let st1 := { st0 with
        now := st0.now + 1
        refreshCalls := 1
        access := t.accessToken
        refreshTok := t.refreshToken
        expiry := t.expiresAt }
      if w.tokenUpdateOk then syncStart w rs2 (updDbTokens st1 t)
      else (.error .updateTokens, st1)
  else syncStart w w.refreshes st0

/-! ## Concrete example inputs

Closed worlds used by the counterexamples and witnesses below. -/

/-- A sample decoded activity. -/
def actA : Activity :=
  ⟨1, "morning run", "Run", some 100, 3600, 10000, 50, some 150⟩

/-- A workout row derived from `actA` for athlete 7. -/
def wrowP : WorkoutRow :=
  ⟨7, "strava", 1, some "morning run", "Run", 100, 3600, some 10000, some 50, some 150, actA⟩

/-- A second workout row for the same key as `wrowP` with different
non-key fields. -/
def wrowQ : WorkoutRow :=
  ⟨7, "strava", 1, some "evening run", "Run", 200, 4000, some 12000, some 60, some 140, actA⟩

/-- A family of distinct decoded activities for populating pages. -/
def mkActivity (i : Nat) : Activity :=
  { id := i, name := "run", sport := "Run", startDate := some 0,
    elapsedSecs := 60, distanceM := 1, totalElevM := 0, avgHR := none }

/-- An athlete row with a token that is far from expiry and no
watermark yet. -/
def freshAthlete : AthleteRow :=
  { accessToken := "at", refreshToken := "rt", tokenExpiry := 100000,
    lastStravaSync := none }

/-- A sync world whose first page answers 401 twice before succeeding
with an empty page; both token refreshes succeed. -/
def w401 : SyncWorld where
  athleteId := 7
  getAthleteOk := true
  db := { athlete := freshAthlete, workouts := [] }
  fetches := [.resp 401 none, .resp 401 none, .resp 200 (some [])]
  refreshes := [.ok ⟨"a2", "r2", 200000⟩, .ok ⟨"a3", "r3", 300000⟩]
  upsertOk := fun _ => true
  tokenUpdateOk := true
  watermarkOk := true
  sinceUnix := 0
  startNow := 0

/-- The spec scenario world: three pages of 50, 50 and 10 items, then
the empty page ending pagination; every upsert succeeds. -/
def wScenario : SyncWorld where
  athleteId := 7
  getAthleteOk := true
  db := { athlete := freshAthlete, workouts := [] }
  fetches := [.resp 200 (some ((List.range 50).map mkActivity)),
              .resp 200 (some ((List.range 50).map (fun i => mkActivity (50 + i)))),
              .resp 200 (some ((List.range 10).map (fun i => mkActivity (100 + i)))),
              .resp 200 (some [])]
  refreshes := []
  upsertOk := fun _ => true
  tokenUpdateOk := true
  watermarkOk := true
  sinceUnix := 0
  startNow := 0

/-- A sync world whose feed is empty: the first page already ends
pagination. -/
def wEmptyPage : SyncWorld :=
  { wScenario with fetches := [.resp 200 (some [])] }

/-- A sync world whose first page fetch fails at the transport level. -/
def wNetErr : SyncWorld where
  athleteId := 7
  getAthleteOk := true
  db := { athlete := freshAthlete, workouts := [] }
  fetches := [.netErr]
  refreshes := []
  upsertOk := fun _ => true
  tokenUpdateOk := true
  watermarkOk := true
  sinceUnix := 0
  startNow := 0

/-- A fetch environment with caching disabled but a cached entry
carrying ETag v1 present for every key, and an upstream that answers
304 Not Modified. -/
def envC6 : FetchEnv where
  noCache := true
  md5 := fun _ => ""
  store := fun _ => some (.entry ⟨"v1", 0, [7]⟩)
  now := 0
  ttl := 3600
  upstream := [.resp 304 "" []]

/-- A credential 60 seconds from expiry, with a successful refresh. -/
def envC3 : EnsureEnv where
  stored := some ⟨"Bearer", "oldA", 60, 60, "oldR"⟩
  now := 0
  refresh := .ok ⟨"Bearer", "newA", 4000, 4000, "newR"⟩
  saveOk := true
  oauthOutcome := .error "unused"

/-! ## Theorems -/

/-- Claim C10: `FileCache.Read` with a positive `maxAge` on an entry
older than `maxAge` returns the stale entry itself with `found = false`;
a missing or undecodable cache file returns `(none, false)`; and
`FileCache.GetETag` returns a stale entry's ETag but the empty string
when no readable entry exists for the key. -/
theorem fileCacheRead_stale_getETag (store : CacheStore) (now : Int) (key : String)
    (maxAge : Int) (e : Entry) :
    (store key = some (.entry e) → maxAge > 0 → now - e.fetchedAt > maxAge →
      FileCache.Read store now key maxAge = (some e, false)) ∧
    (store key = none → FileCache.Read store now key maxAge = (none, false)) ∧
    (store key = some .undecodable → FileCache.Read store now key maxAge = (none, false)) ∧
    (store key = some (.entry e) → FileCache.GetETag store now key = e.etag) ∧
    (store key = none → FileCache.GetETag store now key = "") ∧
    (store key = some .undecodable → FileCache.GetETag store now key = "") := by
  refine ⟨?_, ?_, ?_, ?_, ?_, ?_⟩
  · intro h hpos hold
    simp [FileCache.Read, h, hpos, hold]
  · intro h
    simp [FileCache.Read, h]
  · intro h
    simp [FileCache.Read, h]
  · intro h
    simp [FileCache.GetETag, FileCache.Read, h]
  · intro h
    simp [FileCache.GetETag, FileCache.Read, h]
  · intro h
    simp [FileCache.GetETag, FileCache.Read, h]

/-- Witness for C10 at a concrete store: a 10-second-old entry read with
a 5-second `maxAge` comes back stale but present, and its ETag is still
retrievable. -/
theorem fileCacheRead_stale_getETag_witness :
    FileCache.Read (fun k => if k = "k" then some (.entry ⟨"v1", 0, [1]⟩) else none)
        10 "k" 5 = (some ⟨"v1", 0, [1]⟩, false) ∧
    FileCache.GetETag (fun k => if k = "k" then some (.entry ⟨"v1", 0, [1]⟩) else none)
        10 "k" = "v1" :=
  ⟨(fileCacheRead_stale_getETag _ 10 "k" 5 ⟨"v1", 0, [1]⟩).1 (by decide) (by decide) (by decide),
   (fileCacheRead_stale_getETag _ 10 "k" 5 ⟨"v1", 0, [1]⟩).2.2.2.1 (by decide)⟩

/-- Claim C3: for a stored credential with a refresh token,
`EnsureTokens` refreshes exactly when `expires_at - now` is below the
120-second margin, performing exactly one refresh call; on a successful
refresh with a successful save it persists the complete new token set
and returns the new access token, and a failed save surfaces an error;
outside the margin it returns the stored access token with no network
call and persists nothing. -/
theorem ensureTokens_refresh_margin (env : EnsureEnv) (tok : Tokens)
    (hstored : env.stored = some tok) (hrt : tok.refreshToken ≠ "") :
    (tok.expiresAt - env.now < 120 →
      (EnsureTokens env).refreshCalls = 1 ∧
      (∀ nt, env.refresh = .ok nt → env.saveOk = true →
        (EnsureTokens env).saved = some nt ∧
        (EnsureTokens env).result = .ok nt.accessToken) ∧
      (∀ nt, env.refresh = .ok nt → env.saveOk = false →
        ∃ msg, (EnsureTokens env).result = .error msg)) ∧
    (¬ tok.expiresAt - env.now < 120 →
      (EnsureTokens env).refreshCalls = 0 ∧
      (EnsureTokens env).result = .ok tok.accessToken ∧
      (EnsureTokens env).saved = none) := by
  constructor
  · intro hm
    refine ⟨?_, ?_, ?_⟩
    · cases hr : env.refresh with
      | netErr => simp [EnsureTokens, hstored, hrt, hm, hr]
      | badStatus c => simp [EnsureTokens, hstored, hrt, hm, hr]
      | decodeErr => simp [EnsureTokens, hstored, hrt, hm, hr]
      | ok nt =>
        simp [EnsureTokens, hstored, hrt, hm, hr]
        cases hs : env.saveOk <;> simp [hs]
    · intro nt hr hs
      simp [EnsureTokens, hstored, hrt, hm, hr, hs]
    · intro nt hr hs
      exact ⟨"save token failed", by simp [EnsureTokens, hstored, hrt, hm, hr, hs]⟩
  · intro hm
    simp [EnsureTokens, hstored, hrt, hm]

/-- Witness for C3: a credential expiring 60 seconds from now (inside
the margin) performs exactly one refresh call, persists the new token
set and returns the new access token. -/
theorem ensureTokens_refresh_margin_witness :
    (EnsureTokens envC3).refreshCalls = 1 ∧
    (EnsureTokens envC3).saved = some ⟨"Bearer", "newA", 4000, 4000, "newR"⟩ ∧
    (EnsureTokens envC3).result = .ok "newA" := by
  have h := ensureTokens_refresh_margin envC3 ⟨"Bearer", "oldA", 60, 60, "oldR"⟩
    rfl (by decide)
  have hm := h.1 (by decide)
  have hp := hm.2.1 ⟨"Bearer", "newA", 4000, 4000, "newR"⟩ rfl rfl
  exact ⟨hm.1, hp.1, hp.2⟩

set_option maxRecDepth 4000 in
/-- Claim C7 counterexample: two distinct short paths that differ only
in a filename-hostile character are mapped to the same cache key —
sanitization replaces rather than hashes, so distinct inputs silently
collide. -/
theorem keyFor_sanitize_collision :
    FileCache.KeyFor (fun _ => "") "a:b" [] = FileCache.KeyFor (fun _ => "") "a?b" [] ∧
    ("a:b" : String) ≠ "a?b" := by
  exact ⟨rfl, by decide⟩

/-- Claim C7 (amended): inputs longer than 200 bytes are hashed rather
than truncated, but shorter inputs have their filename-hostile
characters replaced by underscores, and two distinct inputs can collide
after this replacement. -/
theorem sanitizeKey_hash_and_collision (md5 : String → String) (key : String)
    (h : key.utf8ByteSize > 200) :
    FileCache.sanitizeKey md5 key = "hash_" ++ md5 key ∧
    ∃ k1 k2 : String, k1 ≠ k2 ∧ FileCache.sanitizeKey md5 k1 = FileCache.sanitizeKey md5 k2 := by
  constructor
  · simp [FileCache.sanitizeKey, h]
  · exact ⟨"a:b", "a?b", by decide, by set_option maxRecDepth 4000 in rfl⟩

/-- Witness for the amended C7 at a 201-byte key. -/
theorem sanitizeKey_hash_and_collision_witness :
    (String.mk (List.replicate 201 'a')).utf8ByteSize > 200 ∧
    FileCache.sanitizeKey (fun _ => "x") (String.mk (List.replicate 201 'a')) = "hash_x" :=
  ⟨by set_option maxRecDepth 4000 in decide,
   (sanitizeKey_hash_and_collision (fun _ => "x") (String.mk (List.replicate 201 'a'))
     (by set_option maxRecDepth 4000 in decide)).1⟩

/-- Claim C8: `FileCache.KeyFor` is deterministic and independent of
the order in which the parameter pairs are presented: any permutation
of the same key=value pairs yields the same cache key. -/
theorem keyFor_order_independent (md5 : String → String) (path : String)
    (l1 l2 : List (String × String)) (h : l1.Perm l2) :
    FileCache.KeyFor md5 path l1 = FileCache.KeyFor md5 path l2 := by
  have hp : (l1.map (fun kv => kv.1 ++ "=" ++ kv.2)).Perm
      (l2.map (fun kv => kv.1 ++ "=" ++ kv.2)) := h.map _
  have hsort : sortStrings (l1.map (fun kv => kv.1 ++ "=" ++ kv.2)) =
      sortStrings (l2.map (fun kv => kv.1 ++ "=" ++ kv.2)) := by
    unfold sortStrings
    refine List.eq_of_perm_of_sorted (r := strRel) ?_ ?_ ?_
    · exact (List.perm_insertionSort strRel _).trans
        (hp.trans (List.perm_insertionSort strRel _).symm)
    · exact List.sorted_insertionSort strRel _
    · exact List.sorted_insertionSort strRel _
  unfold FileCache.KeyFor
  rw [hsort]

/-- Witness for C8: the two insertion orders of the same parameter set
generate the same key. -/
theorem keyFor_order_independent_witness :
    ([("per_page", "10"), ("include_all_efforts", "true")] :
        List (String × String)).Perm
      [("include_all_efforts", "true"), ("per_page", "10")] ∧
    FileCache.KeyFor (fun _ => "") "/athlete/activities"
        [("per_page", "10"), ("include_all_efforts", "true")] =
      FileCache.KeyFor (fun _ => "") "/athlete/activities"
        [("include_all_efforts", "true"), ("per_page", "10")] :=
  ⟨by decide,
   keyFor_order_independent (fun _ => "") "/athlete/activities" _ _ (by decide)⟩

/-- Claim C9 counterexample: an HTTP 501 response — a 5xx server error —
is classified terminal by `isRetryableError`, because the classifier
only matches the literal substrings 500, 502, 503 and 504. -/
theorem retryable_501_terminal :
    isRetryableError (stravaStatusMsg 501 "") = false ∧
    500 ≤ 501 ∧ 501 ≤ 599 := by decide

/-- Claim C9 (amended): the classifier works by substring matching on
the error text; for status errors with an empty body it marks exactly
500, 502, 503 and 504 (not the whole 5xx range) as retryable, and it
marks 429 and token-refresh failures retryable while a malformed
payload error stays terminal. -/
theorem retryable_classification :
    (∀ d, d < 100 →
      (isRetryableError (stravaStatusMsg (500 + d) "") = true ↔
        (500 + d = 500 ∨ 500 + d = 502 ∨ 500 + d = 503 ∨ 500 + d = 504))) ∧
    isRetryableError (stravaStatusMsg 429 "") = true ∧
    isRetryableError "refresh strava token: eof" = true ∧
    isRetryableError "unmarshal strava activities: invalid character" = false := by decide

/-- Witness for the amended C9 at status 502. -/
theorem retryable_classification_witness :
    (2 : Nat) < 100 ∧ isRetryableError (stravaStatusMsg 502 "") = true :=
  ⟨by decide, (retryable_classification.1 2 (by decide)).2 (by decide)⟩

/-- Unfolding lemma: upserting past a non-matching head row leaves the
head in place and recurses on the tail. -/
theorem upsert_cons_ne (r : WorkoutRow) (rest : List WorkoutRow) (p : WorkoutRow)
    (h : rowKey r ≠ rowKey p) :
    UpsertWorkout (r :: rest) p = r :: UpsertWorkout rest p := by
  unfold UpsertWorkout
  by_cases ha : rest.any (fun x => decide (rowKey x = rowKey p))
  · simp [List.any_cons, h, ha]
  · simp [List.any_cons, h, ha]

/-- Unfolding lemma: upserting onto a matching head row rewrites it. -/
theorem upsert_cons_eq (r : WorkoutRow) (rest : List WorkoutRow) (p : WorkoutRow)
    (h : rowKey r = rowKey p) :
    UpsertWorkout (r :: rest) p =
      p :: rest.map (fun x => if rowKey x = rowKey p then p else x) := by
  unfold UpsertWorkout
  simp [List.any_cons, h]

/-- Rewriting rows of a key that is absent is the identity. -/
theorem map_replace_of_no_key (rest : List WorkoutRow) (p : WorkoutRow)
    (h : ∀ x ∈ rest, rowKey x ≠ rowKey p) :
    rest.map (fun x => if rowKey x = rowKey p then p else x) = rest := by
  induction rest with
  | nil => rfl
  | cons a l ih =>
    have ha := h a (List.mem_cons_self a l)
    simp only [List.map_cons, if_neg ha]
    rw [ih (fun x hx => h x (List.mem_cons_of_mem a hx))]

/-- Filtering for a key that is absent gives the empty list. -/
theorem filter_no_key (rest : List WorkoutRow) (p : WorkoutRow)
    (h : ∀ x ∈ rest, rowKey x ≠ rowKey p) :
    rest.filter (fun r => decide (rowKey r = rowKey p)) = [] := by
  induction rest with
  | nil => rfl
  | cons a l ih =>
    have ha := h a (List.mem_cons_self a l)
    simp only [List.filter_cons, decide_eq_true_eq]
    rw [if_neg (by simpa using ha)]
    exact ih (fun x hx => h x (List.mem_cons_of_mem a hx))

/-- On a table with unique keys, the rows matching the upserted key
after an upsert are exactly the new row. -/
theorem upsert_filter_key (t : List WorkoutRow) (p : WorkoutRow) (hu : keysUnique t) :
    (UpsertWorkout t p).filter (fun r => decide (rowKey r = rowKey p)) = [p] := by
  induction t with
  | nil => simp [UpsertWorkout]
  | cons r rest ih =>
    have hu' : keysUnique rest := (List.nodup_cons.mp hu).2
    by_cases hk : rowKey r = rowKey p
    · rw [upsert_cons_eq r rest p hk]
      have hn : ∀ x ∈ rest, rowKey x ≠ rowKey p := by
        intro x hx he
        exact (List.nodup_cons.mp hu).1 (by
          rw [hk, ← he]
          exact List.mem_map_of_mem rowKey hx)
      rw [map_replace_of_no_key rest p hn]
      simp [filter_no_key rest p hn]
    · rw [upsert_cons_ne r rest p hk]
      simp only [List.filter_cons, decide_eq_true_eq]
      rw [if_neg hk]
      exact ih hu'

/-- `UpsertWorkout` preserves key uniqueness. -/
theorem upsert_keysUnique (t : List WorkoutRow) (p : WorkoutRow) (hu : keysUnique t) :
    keysUnique (UpsertWorkout t p) := by
  unfold UpsertWorkout keysUnique
  by_cases ha : t.any (fun r => decide (rowKey r = rowKey p))
  · rw [if_pos ha, List.map_map]
    have hfun : (rowKey ∘ fun r => if rowKey r = rowKey p then p else r) = rowKey := by
      funext r
      by_cases h : rowKey r = rowKey p <;> simp [h]
    rw [hfun]
    exact hu
  · rw [if_neg ha, List.map_append]
    have hn : ∀ r ∈ t, rowKey r ≠ rowKey p := by
      intro r hr he
      exact ha (List.any_eq_true.mpr ⟨r, hr, by simpa using he⟩)
    refine List.Nodup.append hu (List.nodup_singleton _) ?_
    intro k hk1 hk2
    rcases List.mem_map.mp hk1 with ⟨r, hr, hrk⟩
    have : k = rowKey p := by simpa using hk2
    exact hn r hr (hrk.trans this)

/-- Claim C5: starting from a table with unique keys, two upserts with
the same `(athlete_id, source, source_id)` key and differing other
fields leave exactly one stored row for that key, holding the values of
the latest upsert, and the uniqueness invariant is preserved; repeating
an upsert with identical input never adds a row. -/
theorem upsertWorkout_latest_wins (t : List WorkoutRow) (p q : WorkoutRow)
    (hu : keysUnique t) (_hk : rowKey p = rowKey q) :
    (UpsertWorkout (UpsertWorkout t p) q).filter
        (fun r => decide (rowKey r = rowKey q)) = [q] ∧
    keysUnique (UpsertWorkout (UpsertWorkout t p) q) ∧
    (UpsertWorkout (UpsertWorkout t p) p).length = (UpsertWorkout t p).length := by
  have hu1 := upsert_keysUnique t p hu
  refine ⟨upsert_filter_key _ q hu1, upsert_keysUnique _ q hu1, ?_⟩
  have hf := upsert_filter_key t p hu
  have hmem : p ∈ UpsertWorkout t p := by
    have : p ∈ (UpsertWorkout t p).filter (fun r => decide (rowKey r = rowKey p)) := by
      rw [hf]; exact List.mem_singleton_self p
    exact List.mem_of_mem_filter this
  have hany : (UpsertWorkout t p).any (fun r => decide (rowKey r = rowKey p)) = true :=
    List.any_eq_true.mpr ⟨p, hmem, by simp⟩
  conv_lhs => rw [UpsertWorkout]
  rw [if_pos hany, List.length_map]

/-- Witness for C5: two upserts for source id 1 with different fields
leave one row carrying the second upsert's values, and repeating the
first upsert does not grow the table. -/
theorem upsertWorkout_latest_wins_witness :
    rowKey wrowP = rowKey wrowQ ∧
    (UpsertWorkout (UpsertWorkout [] wrowP) wrowQ).filter
        (fun r => decide (rowKey r = rowKey wrowQ)) = [wrowQ] ∧
    (UpsertWorkout (UpsertWorkout [] wrowP) wrowP).length =
      (UpsertWorkout [] wrowP).length := by
  have h := upsertWorkout_latest_wins [] wrowP wrowQ (by simp [keysUnique]) (by decide)
  exact ⟨by decide, h.1, h.2.2⟩

set_option maxRecDepth 4000 in
/-- Claim C6 counterexample: with `NoCache` set and a cached entry with
a non-empty ETag available, `apiGETCached` still issues a conditional
`If-None-Match` request and serves the cached body on a 304 — it does
not proceed directly to the unconditional request. -/
theorem noCache_still_conditional :
    (apiGETCached (fun b => some b) envC6 "p" []).1 = .ok [7] ∧
    (apiGETCached (fun b => some b) envC6 "p" []).2.1 = [.conditional "v1"] ∧
    envC6.noCache = true :=
  ⟨rfl, rfl, rfl⟩

/-- The unconditional branch always issues exactly one more request,
of the kind still recorded on the request object. -/
theorem apiNormalFetch_reqs (α : Type) (decode : List Nat → Option α) (env : FetchEnv)
    (name : String) (reqs : List ReqKind) (kind : ReqKind) (up : List HttpOutcome) :
    (apiNormalFetch decode env name reqs kind up).2.1 = reqs ++ [kind] := by
  cases up with
  | nil => rfl
  | cons h rest =>
    cases h with
    | netErr => rfl
    | resp s e b =>
      simp only [apiNormalFetch]
      by_cases hs : 300 ≤ s
      · rw [if_pos hs]
      · rw [if_neg hs]

/-- Claim C6 (amended): when `NoCache` is set the fresh-cache read is
skipped, so the call always goes to the revalidation step and issues at
least one network request; if a cached entry with a non-empty ETag
exists the first request is still conditional, and only when no cached
ETag is available does the call proceed directly to the single
unconditional request. -/
theorem apiGETCached_noCache (α : Type) (decode : List Nat → Option α) (env : FetchEnv)
    (path : String) (params : List (String × String)) (hnc : env.noCache = true) :
    apiGETCached decode env path params =
      apiETagStep decode env (FileCache.KeyFor env.md5 path params) ∧
    (apiGETCached decode env path params).2.1 ≠ [] ∧
    (∀ e found,
      FileCache.Read env.store env.now (FileCache.KeyFor env.md5 path params) 0
          = (some e, found) → e.etag ≠ "" →
      (apiGETCached decode env path params).2.1.head? = some (.conditional e.etag)) ∧
    (∀ e found,
      FileCache.Read env.store env.now (FileCache.KeyFor env.md5 path params) 0
          = (some e, found) → e.etag = "" →
      (apiGETCached decode env path params).2.1 = [.plain]) ∧
    (∀ found,
      FileCache.Read env.store env.now (FileCache.KeyFor env.md5 path params) 0
          = (none, found) →
      (apiGETCached decode env path params).2.1 = [.plain]) := by
  have hstep : apiGETCached decode env path params =
      apiETagStep decode env (FileCache.KeyFor env.md5 path params) := by
    simp [apiGETCached, hnc]
  refine ⟨hstep, ?_, ?_, ?_, ?_⟩
  · rw [hstep]
    unfold apiETagStep
    cases hr : FileCache.Read env.store env.now (FileCache.KeyFor env.md5 path params) 0 with
    | mk eo found =>
      cases eo with
      | none =>
        simp only
        rw [apiNormalFetch_reqs]
        simp
      | some e =>
        simp only
        by_cases hetag : e.etag = ""
        · rw [if_neg (by simpa using hetag)]
          rw [apiNormalFetch_reqs]
          simp
        · rw [if_pos (by simpa using hetag)]
          cases env.upstream with
          | nil => rw [apiNormalFetch_reqs]; simp
          | cons h rest =>
            cases h with
            | netErr => rw [apiNormalFetch_reqs]; simp
            | resp s et b =>
              by_cases hs : s = 304
              · simp [hs]
              · simp [hs, apiNormalFetch_reqs]
  · intro e found hr hetag
    rw [hstep]
    unfold apiETagStep
    rw [hr]
    simp only
    rw [if_pos (by simpa using hetag)]
    cases env.upstream with
    | nil => rw [apiNormalFetch_reqs]; simp
    | cons h rest =>
      cases h with
      | netErr => rw [apiNormalFetch_reqs]; simp
      | resp s et b =>
        by_cases hs : s = 304
        · simp [hs]
        · simp [hs, apiNormalFetch_reqs]
  · intro e found hr hetag
    rw [hstep]
    unfold apiETagStep
    rw [hr]
    simp only
    rw [if_neg (by simpa using hetag)]
    rw [apiNormalFetch_reqs]
    simp
  · intro found hr
    rw [hstep]
    unfold apiETagStep
    rw [hr]
    simp only
    rw [apiNormalFetch_reqs]
    simp

/-- Witness for the amended C6: with `NoCache` set and no cache entry
at all, the call makes exactly one unconditional request. -/
theorem apiGETCached_noCache_witness :
    (apiGETCached (fun b => some b)
        { noCache := true, md5 := fun _ => "", store := fun _ => none,
          now := 0, ttl := 3600, upstream := [] } "p" []).2.1 = [.plain] :=
  (apiGETCached_noCache (List Nat) (fun b => some b)
    { noCache := true, md5 := fun _ => "", store := fun _ => none,
      now := 0, ttl := 3600, upstream := [] } "p" [] rfl).2.2.2.2 false
    (by set_option maxRecDepth 4000 in rfl)

/-- The per-page upsert loop touches only the workout table and the
upsert counter: clock, attempts, watermark counter and the athlete row
are unchanged. -/
theorem upsertItems_preserves (aid : Nat) (u : Nat → Bool) :
    ∀ (items : List Activity) (st : SyncState),
      (upsertItems aid u items st).2.wmWrites = st.wmWrites ∧
      (upsertItems aid u items st).2.db.athlete = st.db.athlete ∧
      (upsertItems aid u items st).2.now = st.now ∧
      (upsertItems aid u items st).2.attempts = st.attempts := by
  intro items
  induction items with
  | nil => intro st; exact ⟨rfl, rfl, rfl, rfl⟩
  | cons a rest ih =>
    intro st
    unfold upsertItems
    by_cases h : u st.total
    · rw [if_pos h]
      exact ih _
    · rw [if_neg h]
      exact ⟨rfl, rfl, rfl, rfl⟩

/-- Loop invariant for `syncLoop`: an error leaves the watermark (and
its write counter) exactly as it was; success performs exactly one
watermark write, setting it to the clock at completion, strictly after
entry, and happens only because some scripted page response carried a
2xx status with an empty, decodable item list. -/
theorem syncLoop_spec (aid : Nat) (u : Nat → Bool) (tU wOk : Bool) :
    ∀ (fetches : List FetchOutcome) (rs : List RefreshOutcome) (page : Nat)
      (st : SyncState) (res : Except SyncErr Unit) (stF : SyncState),
      syncLoop aid u tU wOk fetches rs page st = (res, stF) →
      ((∃ e, res = .error e) →
        stF.wmWrites = st.wmWrites ∧
        stF.db.athlete.lastStravaSync = st.db.athlete.lastStravaSync) ∧
      (res = .ok () →
        wOk = true ∧
        stF.wmWrites = st.wmWrites + 1 ∧
        stF.db.athlete.lastStravaSync = some stF.now ∧
        st.now < stF.now ∧
        ∃ n s, fetches.get? n = some (.resp s (some [])) ∧ s ≠ 401 ∧ s < 300) := by
  intro fetches
  induction fetches with
  | nil =>
    intro rs page st res stF h
    simp only [syncLoop] at h
    injection h with h1 h2
    subst h1
    subst h2
    refine ⟨fun _ => ⟨rfl, rfl⟩, fun hok => by cases hok⟩
  | cons f fs ih =>
    intro rs page st res stF h
    cases f with
    | netErr =>
      simp only [syncLoop] at h
      injection h with h1 h2
      subst h1
      subst h2
      refine ⟨fun _ => ⟨rfl, rfl⟩, fun hok => by cases hok⟩
    | resp status items =>
      simp only [syncLoop] at h
      by_cases h401 : status = 401
      · rw [if_pos h401] at h
        cases rs with
        | nil =>
          injection h with h1 h2
          subst h1
          subst h2
          refine ⟨fun _ => ⟨rfl, rfl⟩, fun hok => by cases hok⟩
        | cons r rs2 =>
          cases r with
          | err =>
            dsimp only at h
            injection h with h1 h2
            subst h1
            subst h2
            refine ⟨fun _ => ⟨rfl, rfl⟩, fun hok => by cases hok⟩
          | ok t =>
            dsimp only at h
            by_cases htU : tU
            · rw [if_pos htU] at h
              have ihs := ih rs2 page _ res stF h
              refine ⟨fun he => ihs.1 he, fun hok => ?_⟩
              have hr := ihs.2 hok
              refine ⟨hr.1, hr.2.1, hr.2.2.1, ?_, ?_⟩
              · have h2 : st.now + 1 + 1 < stF.now := hr.2.2.2.1
                omega
              · obtain ⟨n, s, hn, hs1, hs2⟩ := hr.2.2.2.2
                exact ⟨n + 1, s, by simpa using hn, hs1, hs2⟩
            · rw [if_neg htU] at h
              injection h with h1 h2
              subst h1
              subst h2
              refine ⟨fun _ => ⟨rfl, rfl⟩, fun hok => by cases hok⟩
      · rw [if_neg h401] at h
        by_cases h300 : 300 ≤ status
        · rw [if_pos h300] at h
          injection h with h1 h2
          subst h1
          subst h2
          refine ⟨fun _ => ⟨rfl, rfl⟩, fun hok => by cases hok⟩
        · rw [if_neg h300] at h
          cases items with
          | none =>
            dsimp only at h
            injection h with h1 h2
            subst h1
            subst h2
            refine ⟨fun _ => ⟨rfl, rfl⟩, fun hok => by cases hok⟩
          | some l =>
            cases l with
            | nil =>
              dsimp only at h
              by_cases hwOk : wOk
              · rw [if_pos hwOk] at h
                injection h with h1 h2
                subst h1
                subst h2
                constructor
                · rintro ⟨e, he⟩
                  cases he
                · intro _
                  refine ⟨hwOk, rfl, rfl, by dsimp only; omega, 0, status, rfl, h401, by omega⟩
              · rw [if_neg hwOk] at h
                injection h with h1 h2
                subst h1
                subst h2
                refine ⟨fun _ => ⟨rfl, rfl⟩, fun hok => by cases hok⟩
            | cons a rest2 =>
              dsimp only at h
              rcases hui : upsertItems aid u (a :: rest2)
                  { st with attempts := st.attempts ++ [page], now := st.now + 1 } with
                ⟨okb, st2⟩
              have hpre := upsertItems_preserves aid u (a :: rest2)
                { st with attempts := st.attempts ++ [page], now := st.now + 1 }
              rw [hui] at hpre h
              cases okb with
              | true =>
                dsimp only at h
                have ihs := ih rs (page + 1) st2 res stF h
                constructor
                · intro he
                  have h1 := ihs.1 he
                  refine ⟨h1.1.trans hpre.1, h1.2.trans ?_⟩
                  rw [hpre.2.1]
                · intro hok
                  have hr := ihs.2 hok
                  refine ⟨hr.1, by rw [hr.2.1, hpre.1], hr.2.2.1, ?_, ?_⟩
                  · have h2 := hr.2.2.2.1
                    rw [hpre.2.2.1] at h2
                    dsimp only at h2
                    omega
                  · obtain ⟨n, s, hn, hs1, hs2⟩ := hr.2.2.2.2
                    exact ⟨n + 1, s, by simpa using hn, hs1, hs2⟩
              | false =>
                dsimp only at h
                injection h with h1 h2
                subst h1
                subst h2
                refine ⟨fun _ => ⟨hpre.1, by rw [hpre.2.1]⟩, fun hok => by cases hok⟩

/-- Entering the pagination loop from `syncStart` keeps the watermark
semantics of `syncLoop_spec`. -/
theorem syncStart_spec (w : SyncWorld) (rs : List RefreshOutcome) (st : SyncState)
    (res : Except SyncErr Unit) (stF : SyncState)
    (h : syncStart w rs st = (res, stF)) :
    ((∃ e, res = .error e) →
      stF.wmWrites = st.wmWrites ∧
      stF.db.athlete.lastStravaSync = st.db.athlete.lastStravaSync) ∧
    (res = .ok () →
      w.watermarkOk = true ∧
      stF.wmWrites = st.wmWrites + 1 ∧
      stF.db.athlete.lastStravaSync = some stF.now ∧
      st.now < stF.now ∧
      ∃ n s, w.fetches.get? n = some (.resp s (some [])) ∧ s ≠ 401 ∧ s < 300) := by
  unfold syncStart at h
  dsimp only at h
  exact syncLoop_spec w.athleteId w.upsertOk w.tokenUpdateOk w.watermarkOk
    w.fetches rs 1
    { st with
      since :=
        if w.sinceUnix ≠ 0 then w.sinceUnix
        else
          match w.db.athlete.lastStravaSync with
          | some t => t - 43200
          | none => st.now - 1209600 }
    res stF h

/-- Claim C1: whenever `syncStravaForAthlete` returns an error — a page
fetch failure, an error status, an undecodable payload, a failed upsert
or any pre-loop failure — it performs no watermark write and leaves the
stored watermark unchanged; when it returns success it performs exactly
one watermark write, setting the watermark to the completion time,
which happens exactly because pagination reached a page whose response
carried an empty item list. -/
theorem sync_watermark_on_error_and_success (w : SyncWorld) :
    ((∃ e, (syncStravaForAthlete w).1 = .error e) →
      (syncStravaForAthlete w).2.wmWrites = 0 ∧
      (syncStravaForAthlete w).2.db.athlete.lastStravaSync =
        w.db.athlete.lastStravaSync) ∧
    ((syncStravaForAthlete w).1 = .ok () →
      w.watermarkOk = true ∧
      (syncStravaForAthlete w).2.wmWrites = 1 ∧
      (syncStravaForAthlete w).2.db.athlete.lastStravaSync =
        some (syncStravaForAthlete w).2.now ∧
      ∃ n s, w.fetches.get? n = some (.resp s (some [])) ∧ s ≠ 401 ∧ s < 300) := by
  rcases hsl : syncStravaForAthlete w with ⟨res, stF⟩
  dsimp only
  unfold syncStravaForAthlete at hsl
  by_cases hga : w.getAthleteOk = false
  · rw [if_pos hga] at hsl
    injection hsl with h1 h2
    subst h1
    subst h2
    exact ⟨fun _ => ⟨rfl, rfl⟩, fun hok => by cases hok⟩
  · rw [if_neg hga] at hsl
    by_cases hexp : w.db.athlete.tokenExpiry - w.startNow < 120
    · rw [if_pos hexp] at hsl
      cases hrs : w.refreshes with
      | nil =>
        rw [hrs] at hsl
        dsimp only at hsl
        injection hsl with h1 h2
        subst h1
        subst h2
        exact ⟨fun _ => ⟨rfl, rfl⟩, fun hok => by cases hok⟩
      | cons r rs2 =>
        rw [hrs] at hsl
        cases r with
        | err =>
          dsimp only at hsl
          injection hsl with h1 h2
          subst h1
          subst h2
          exact ⟨fun _ => ⟨rfl, rfl⟩, fun hok => by cases hok⟩
        | ok t =>
          dsimp only at hsl
          by_cases htU : w.tokenUpdateOk
          · rw [if_pos htU] at hsl
            have hspec := syncStart_spec w rs2 _ res stF hsl
            refine ⟨fun he => (hspec.1 he), fun hok => ?_⟩
            have hr := hspec.2 hok
            exact ⟨hr.1, hr.2.1, hr.2.2.1, hr.2.2.2.2⟩
          · rw [if_neg htU] at hsl
            injection hsl with h1 h2
            subst h1
            subst h2
            exact ⟨fun _ => ⟨rfl, rfl⟩, fun hok => by cases hok⟩
    · rw [if_neg hexp] at hsl
      have hspec := syncStart_spec w w.refreshes _ res stF hsl
      refine ⟨fun he => (hspec.1 he), fun hok => ?_⟩
      have hr := hspec.2 hok
      exact ⟨hr.1, hr.2.1, hr.2.2.1, hr.2.2.2.2⟩

/-- Witness for C1 at a transport failure on the first page: the error
propagates and the stored watermark is untouched. -/
theorem sync_watermark_on_error_witness :
    (syncStravaForAthlete wNetErr).1 = .error .fetchNet ∧
    (syncStravaForAthlete wNetErr).2.wmWrites = 0 ∧
    (syncStravaForAthlete wNetErr).2.db.athlete.lastStravaSync = none := by
  have h := (sync_watermark_on_error_and_success wNetErr).1 ⟨.fetchNet, rfl⟩
  exact ⟨rfl, h.1, h.2.trans rfl⟩

/-- Claim C2 counterexample: with two consecutive 401 responses on
page 1 and two successful refreshes, the engine refreshes twice and
fetches page 1 three times, then completes successfully — it retries
the same page more than once after more than one forced refresh, and
surfaces no error. -/
theorem sync_401_retries_unbounded_counterexample :
    (syncStravaForAthlete w401).1 = .ok () ∧
    (syncStravaForAthlete w401).2.attempts = [1, 1, 1] ∧
    (syncStravaForAthlete w401).2.refreshCalls = 2 :=
  ⟨rfl, rfl, rfl⟩

/-- Claim C2 (amended): on each 401 the engine forces one token
refresh; if the refresh (or persisting the refreshed tokens) fails the
error surfaces, and otherwise it retries the same page with the new
tokens — with no bound on the number of refresh-and-retry cycles for a
single page. -/
theorem syncLoop_401_behavior (aid : Nat) (u : Nat → Bool) (tU wOk : Bool)
    (fs : List FetchOutcome) (rs2 : List RefreshOutcome)
    (items : Option (List Activity)) (t : TokenResp) (page : Nat) (st : SyncState) :
    syncLoop aid u tU wOk (.resp 401 items :: fs) (.ok t :: rs2) page st =
      (if tU then
        syncLoop aid u tU wOk fs rs2 page
          (updDbTokens
            { st with
              attempts := st.attempts ++ [page]
              now := st.now + 1 + 1
              refreshCalls := st.refreshCalls + 1
              access := t.accessToken
              refreshTok := t.refreshToken
              expiry := t.expiresAt } t)
      else
        (.error .updateTokens401,
          { st with
            attempts := st.attempts ++ [page]
            now := st.now + 1 + 1
            refreshCalls := st.refreshCalls + 1
            access := t.accessToken
            refreshTok := t.refreshToken
            expiry := t.expiresAt })) ∧
    syncLoop aid u tU wOk (.resp 401 items :: fs) (.err :: rs2) page st =
      (.error .refresh401,
        { st with
          attempts := st.attempts ++ [page]
          now := st.now + 1 + 1
          refreshCalls := st.refreshCalls + 1 }) ∧
    syncLoop aid u tU wOk (.resp 401 items :: fs) [] page st =
      (.error .refresh401,
        { st with
          attempts := st.attempts ++ [page]
          now := st.now + 1 + 1
          refreshCalls := st.refreshCalls + 1 }) :=
  ⟨rfl, rfl, rfl⟩

/-- Claim C4 counterexample: the spec scenario — pages of 50, 50 and 10
items, all upserted — completes successfully, but the stored watermark
is the completion time (four round trips after the start), not the time
synchronization started. -/
theorem sync_scenario_watermark_not_start_time :
    (syncStravaForAthlete wScenario).1 = .ok () ∧
    (syncStravaForAthlete wScenario).2.total = 110 ∧
    (syncStravaForAthlete wScenario).2.db.athlete.lastStravaSync = some 4 ∧
    wScenario.startNow = 0 ∧
    some (4 : Int) ≠ some (0 : Int) :=
  ⟨rfl, rfl, rfl, rfl, by decide⟩

/-- Claim C4 (amended): after `SyncAccount` completes all pages
successfully, the stored watermark equals the current time at the
moment the synchronization completes, which is strictly after the time
it started. -/
theorem sync_watermark_completion_time (w : SyncWorld)
    (hok : (syncStravaForAthlete w).1 = .ok ()) :
    (syncStravaForAthlete w).2.db.athlete.lastStravaSync =
      some (syncStravaForAthlete w).2.now ∧
    w.startNow < (syncStravaForAthlete w).2.now := by
  rcases hsl : syncStravaForAthlete w with ⟨res, stF⟩
  rw [hsl] at hok
  dsimp only at hok ⊢
  subst hok
  unfold syncStravaForAthlete at hsl
  by_cases hga : w.getAthleteOk = false
  · rw [if_pos hga] at hsl
    injection hsl with h1 h2
    cases h1
  · rw [if_neg hga] at hsl
    by_cases hexp : w.db.athlete.tokenExpiry - w.startNow < 120
    · rw [if_pos hexp] at hsl
      cases hrs : w.refreshes with
      | nil =>
        rw [hrs] at hsl
        dsimp only at hsl
        injection hsl with h1 h2
        cases h1
      | cons r rs2 =>
        rw [hrs] at hsl
        cases r with
        | err =>
          dsimp only at hsl
          injection hsl with h1 h2
          cases h1
        | ok t =>
          dsimp only at hsl
          by_cases htU : w.tokenUpdateOk
          · rw [if_pos htU] at hsl
            have hspec := (syncStart_spec w rs2 _ _ stF hsl).2 rfl
            refine ⟨hspec.2.2.1, ?_⟩
            have hlt : w.startNow + 1 < stF.now := hspec.2.2.2.1
            omega
          · rw [if_neg htU] at hsl
            injection hsl with h1 h2
            cases h1
    · rw [if_neg hexp] at hsl
      have hspec := (syncStart_spec w w.refreshes _ _ stF hsl).2 rfl
      refine ⟨hspec.2.2.1, ?_⟩
      exact hspec.2.2.2.1

/-- Witness for the amended C4: a one-page sync finishes one round trip
after it starts and stores exactly that completion time. -/
theorem sync_watermark_completion_time_witness :
    (syncStravaForAthlete wEmptyPage).1 = .ok () ∧
    (syncStravaForAthlete wEmptyPage).2.db.athlete.lastStravaSync =
      some (syncStravaForAthlete wEmptyPage).2.now ∧
    wEmptyPage.startNow < (syncStravaForAthlete wEmptyPage).2.now :=
  ⟨rfl, (sync_watermark_completion_time wEmptyPage rfl).1,
    (sync_watermark_completion_time wEmptyPage rfl).2⟩
